import Mathlib

/-!
Shallow embedding of the motion-accumulator arithmetic subsystem of
`plotink` (`src/plotink/ebb_calc.py`): `move_dist_lt`, `move_dist_t3`,
`rate_t3`, `max_rate_t3`, `calculate_lm`.

The Python source performs its intermediate arithmetic with `mpmath` at 30
decimal digits (about 100 bits), which is exact for every quantity the code
manipulates in its operating range: all intermediate values are integers
scaled by 2 (LM case: the only fraction is `accel/2`) or by 6 (T3 case:
fractions `accel/2` and `jerk/6`).  The embedding therefore works over `Int`
with the values pre-multiplied by 2 (resp. 6), which is exact for all inputs.
Python's `int(x)` on a number is truncation toward zero (`Int.tdiv` for
quotients), `mpmath.floor` is the real floor (`Int.fdiv` for quotients with
the sign handled, since `Int.fdiv` rounds toward negative infinity), and
`mpmath.ceil` the real ceiling.

The accumulator argument `accum` of the Python functions is either the
string sentinel `"clear"` or an integer; it is embedded as `Option Int`
with `none` standing for `"clear"`.
-/

/-- `2^31 - 1`, the value the accumulator is cleared to for initially
negative rates. -/
def accumMax : Int := 2147483647

/-- `2^31`, the accumulator wrap modulus. -/
def accumMod : Int := 2147483648

/-- The condition under which `move_dist_lt` (lines 75-82) and
`calculate_lm` (lines 260-266) treat the rate during the first step of the
move as negative: `temp_rate = rate - int(accel / 2) + accel` is negative,
or it is zero and `accel < 0` (rate at the second step negative). -/
def initialRateNegativeLT (rate accel : Int) : Bool :=
  let temp_rate := rate - Int.tdiv accel 2 + accel
  if temp_rate < 0 then true
  else if temp_rate = 0 ∧ accel < 0 then true
  else false

/-- Accumulator-argument resolution shared by `move_dist_lt` (lines 75-84)
and `calculate_lm` (lines 268-274): an explicit integer is used as given;
`"clear"` (here `none`) clears to `0`, or to `2^31 - 1` when the effective
initial rate is negative. -/
def resolveAccumLT (rate accel : Int) (accum : Option Int) : Int :=
  match accum with
  | some a => a
  | none => if initialRateNegativeLT rate accel then accumMax else 0

/-- Twice the raw (unwrapped) accumulator value of `move_dist_lt` at time
`time` (line 90-91 of the source):
`2 * (accum + rate_effective * time + accel * time^2 / 2)` with
`rate_effective = rate + accel/2 - int(accel/2)`.  Doubling clears the only
denominator, so this is exact integer arithmetic. -/
def ltRaw2 (rate accel time accumV : Int) : Int :=
  2 * accumV + (2 * rate + accel - 2 * Int.tdiv accel 2) * time
    + accel * time * time

/-- `move_dist_lt(rate, accel, time, accum)` (ebb_calc.py lines 48-96):
step position and final accumulator after `time` ISR ticks of an LM/LT
move.  `pos = floor(raw / 2^31)` and the returned accumulator is
`raw - 2^31 * pos`; in the doubled representation those are
`floor(raw2 / 2^32)` and `(raw2 - 2^32 * pos) / 2` (the remainder is even,
and Python's final `int(...)` truncation is exact). -/
def move_dist_lt (rate accel time : Int) (accum : Option Int) : Int × Int :=
  if time = 0 then (0, 0)
  else
    let accumV := resolveAccumLT rate accel accum
    let raw2 := ltRaw2 rate accel time accumV
    let pos := Int.fdiv raw2 4294967296
    (pos, Int.fdiv (raw2 - 4294967296 * pos) 2)

/-- Accumulator-argument resolution of `move_dist_t3` (lines 127-140):
`"clear"` clears to `2^31 - 1` when the rate during the first step is
negative, with a cascading check of the rate at the second and third steps
when the earlier ones are exactly zero; otherwise clears to `0`. -/
def resolveAccumT3 (rate accel jerk : Int) (accum : Option Int) : Int :=
  match accum with
  | some a => a
  | none =>
    let temp_rate := rate - Int.tdiv accel 2 + Int.tdiv jerk 6 + accel
    if temp_rate < 0 then accumMax
    else if temp_rate = 0 then
      let temp_rate2 := accel + jerk
      if temp_rate2 < 0 then accumMax
      else if temp_rate2 = 0 then
        if jerk < 0 then accumMax else 0
      else 0
    else 0

/-- Six times the raw (unwrapped) cubic accumulator value of `move_dist_t3`
at time `time` (lines 143-152 of the source):
`6 * (accum + rate_effective * T + accel * T^2 / 2 + jerk * T^3 / 6)` with
`rate_effective = rate + accel/2 - int(accel/2) + int(jerk/6) - jerk/6`.
Multiplying by 6 clears both denominators, so this is exact.  (The source's
`if abs(rate_effective - rate) < 0.01: rate_effective = rate` branch is the
identity in exact arithmetic: the correction terms are multiples of `1/6`,
so they are below `0.01` exactly when they vanish.) -/
def t3Raw6 (time rate accel jerk accumV : Int) : Int :=
  6 * accumV
    + (6 * rate + 3 * accel - 6 * Int.tdiv accel 2
        + 6 * Int.tdiv jerk 6 - jerk) * time
    + 3 * accel * time * time + jerk * time * time * time

/-- `round(x)` of a real `x = n / 6` given as the integer `n`, rounding to
the nearest integer with ties away from the floor (round-half-up):
`round(n/6) = floor(n/6 + 1/2) = floor((n + 3) / 6)`. -/
def roundHalfUpSixth (n : Int) : Int := Int.fdiv (n + 3) 6

/-- `move_dist_t3(time, rate, accel, jerk, accum)` (ebb_calc.py lines
99-159): step position and final accumulator after `time` ISR ticks of a T3
move.  The raw cubic value is rounded to the nearest integer (the raw value
is in fact always an integer, see `t3Raw6_dvd`, so the tie-breaking
direction of the source's `round` never matters), then split into
`floor(rounded / 2^31)` and the remainder. -/
def move_dist_t3 (time rate accel jerk : Int) (accum : Option Int) :
    Int × Int :=
  if time = 0 then (0, 0)
  else
    let accumV := resolveAccumT3 rate accel jerk accum
    let rounded := roundHalfUpSixth (t3Raw6 time rate accel jerk accumV)
    let pos := Int.fdiv rounded accumMod
    (pos, rounded - accumMod * pos)

/-- The general-formula branch of `rate_t3` (line 184-185 of the source):
`round(rate - int(accel/2) + int(jerk/6) + (accel - jerk/2)*T + jerk*T^2/2)`.
Since `jerk*(T^2 - T)` is always even, the argument of `round` equals the
integer below exactly and the rounding is the identity. -/
def rate_t3_poly (time rate accel jerk : Int) : Int :=
  rate - Int.tdiv accel 2 + Int.tdiv jerk 6 + accel * time
    + Int.fdiv (jerk * (time * time - time)) 2

/-- `rate_t3(time, rate, accel, jerk)` (ebb_calc.py lines 162-185): rate
after `time` ticks of a T3 command; `time = 0` is special-cased to
`rate + accel + jerk`. -/
def rate_t3 (time rate accel jerk : Int) : Int :=
  if time = 0 then rate + accel + jerk
  else rate_t3_poly time rate accel jerk

/-- The real-valued critical point `t_mid = (jerk/2 - accel) / jerk` of the
rate polynomial used by `max_rate_t3` (line 212 of the source), as an exact
rational. -/
def tMidQ (accel jerk : Int) : ℚ := ((jerk : ℚ) / 2 - accel) / jerk

/-- `max_rate_t3(time, rate, accel, jerk)` (ebb_calc.py lines 188-218):
absolute value of the maximum rate during a T3 command.  Compares the rates
at tick 1 and tick `time`, plus the rate at `ceil(t_mid)` when `jerk ≠ 0`
and the critical point `t_mid` lies strictly inside `(1.5, time - 1.5)`.
For `time ≤ 1` only the tick-1 rate is used. -/
def max_rate_t3 (time rate accel jerk : Int) : Int :=
  let v_start := |rate_t3 1 rate accel jerk|
  if time ≤ 1 then v_start
  else
    let v_end := |rate_t3 time rate accel jerk|
    if jerk = 0 then max v_start v_end
    else
      let t_mid := tMidQ accel jerk
      if (3 / 2 : ℚ) < t_mid ∧ t_mid < (time : ℚ) - 3 / 2 then
        let v_mid := |rate_t3 ⌈t_mid⌉ rate accel jerk|
        max (max v_start v_end) v_mid
      else max v_start v_end

/-- Newton iteration step for the integer square root, with explicit fuel.
The guess sequence is strictly decreasing while `next < g`, so enough fuel
makes the result independent of the fuel. -/
def isqrtAux : Nat → Nat → Nat → Nat
  | 0, _, g => g
  | f + 1, n, g =>
    let next := (g + n / g) / 2
    if next < g then isqrtAux f n next else g

/-- `⌊√n⌋` by Newton iteration from the initial guess `n / 2`.  Starting
from `n / 2` the guess at least halves on each step until it is within a
constant of `√n`, so fuel 128 is exact for every `n < 2^128` — far beyond
the magnitudes `calculate_lm` produces (discriminants below `2^96`). -/
def isqrtNat (n : Nat) : Nat := if n ≤ 1 then n else isqrtAux 128 n (n / 2)

/-- `⌊p / q⌋` of the exact rational `p / q`, `q ≠ 0`: the sign of the
denominator is normalised away (`p / q = (-p) / (-q)`), after which
`Int.fdiv` at a non-negative denominator is the real floor. -/
def ratFloor (p q : Int) : Int :=
  if q < 0 then Int.fdiv (-p) (-q) else Int.fdiv p q

/-- `⌈p / q⌉` of the exact rational `p / q`, `q ≠ 0`, via
`⌈x⌉ = -⌊-x⌋`. -/
def ratCeil (p q : Int) : Int := -(ratFloor (-p) q)

/-- `⌈(p + e·√N)/q⌉` for `e ∈ {1, -1}`, `N ≥ 0` and a positive
denominator `q`: the exact ceiling of a quadratic-formula root, embedding
`mpmath.ceil` applied to `(-b ± sqrt(disc)) / (2a)` computed at 30
significant digits (exact in the code's operating range).  When `N` is a
perfect square the root is rational and `ratCeil` applies.  Otherwise `√N`
is irrational, so with `s = ⌊√N⌋` and `q > 0`:
`⌊(p + √N)/q⌋ = ⌊(p + s)/q⌋` (for any integer `m`, `m ≤ √N ↔ m ≤ s`), the
root is irrational, and its ceiling is its floor plus one; the `e = -1`
case is reduced to that via `⌈x⌉ = -⌊-x⌋`. -/
def ceilRootPos (p e bigN q : Int) : Int :=
  let s : Int := (isqrtNat bigN.toNat : Nat)
  if s * s = bigN then ratCeil (p + e * s) q
  else if 0 < e then Int.fdiv (p + s) q + 1
  else -(Int.fdiv (-p + s) q)

/-- `⌈(p + e·√N)/q⌉` for a denominator of either sign: normalise
`p / q = (-p) / (-q)` to a positive denominator, then `ceilRootPos`. -/
def ceilRoot (p e bigN q : Int) : Int :=
  if q < 0 then ceilRootPos (-p) (-e) bigN (-q) else ceilRootPos p e bigN q

/-- Twice the effective rate `rate + accel/2 - int(accel/2)` of the source
(lines 87, 258): doubling clears the half-step correction. -/
def lm_b2 (rate accel : Int) : Int :=
  2 * rate + accel - 2 * Int.tdiv accel 2

/-- Final accumulator of `calculate_lm` (lines 371-376):
`int(accum + rate_effective*t + accel*t^2/2 - 2^31*pos)`, written on the
doubled representation (the argument of the truncation is even, so the
truncation is exact division by 2). -/
def lm_accum_final (rate accel accumV pos t : Int) : Int :=
  Int.tdiv (ltRaw2 rate accel t accumV - 4294967296 * pos) 2

/-- Reversal tick of `calculate_lm` (lines 283-287): `-1` when the motion
cannot reverse (`accel = 0`, `rate = 0`, or like signs), otherwise
`floor(0.5 - rate/accel) = floor((accel - 2*rate) / (2*accel))`. -/
def lm_t_rev (rate accel : Int) : Int :=
  if accel ≠ 0 ∧ rate ≠ 0 ∧ ¬((0 < accel) ↔ (0 < rate)) then
    ratFloor (accel - 2 * rate) (2 * accel)
  else -1

/-- Unsigned step position at the reversal tick (lines 289-295):
`floor(|rate_effective*t_rev + accel*t_rev^2/2 + accum_adj| / 2^31)`,
written on the doubled representation. -/
def lm_s_rev (rate accel accum_adj t_rev : Int) : Int :=
  if 0 < t_rev then
    Int.fdiv
      |lm_b2 rate accel * t_rev + accel * t_rev * t_rev + 2 * accum_adj|
      4294967296
  else 0

/-- The final-position case split of `calculate_lm` (lines 297-322):
returns `(pos_final, pos_f_adj, t_rev)` where `t_rev` has been reset to
`-1` when the reversal is irrelevant (first branch of the source). -/
def lm_pos_info (steps rate accel accum_adj : Int) : Int × Int × Int :=
  let t_rev := lm_t_rev rate accel
  let s_rev := lm_s_rev rate accel accum_adj t_rev
  if t_rev ≤ 1 ∨ s_rev ≥ steps then
    let pos := if initialRateNegativeLT rate accel then -steps else steps
    (pos, pos, -1)
  else if s_rev = 0 then
    if 0 < accel then (steps, steps - 1, t_rev)
    else (-steps, -steps + 1, t_rev)
  else
    let net := 2 * s_rev - steps
    if 0 < accel then (-net, -net - 1, t_rev)
    else (net, net + 1, t_rev)

/-- Root selection of `calculate_lm` (lines 358-366): of the two ceiled
candidate roots (flagged `-1` when discarded), pick a positive one,
preferring the smaller when both are positive, and fall back to 0. -/
def lm_root_select (nr pr : Int) : Int :=
  if 0 < nr then (if 0 < pr ∧ pr < nr then pr else nr)
  else if 0 < pr then pr else 0

/-- The ceiled quadratic roots of `calculate_lm` (lines 333-356): both
roots `(-b2 ± √bigN)/q` when the discriminant is non-negative, ceiled,
with a root at or before the reversal tick `t_rev2` discarded (set to
`-1`); `(-1, -1)` when the discriminant is negative. -/
def lm_roots (b2 bigN q t_rev2 : Int) : Int × Int :=
  if 0 ≤ bigN then
    let nr0 := ceilRoot (-b2) (-1) bigN q
    let pr0 := ceilRoot (-b2) 1 bigN q
    (if 0 < t_rev2 ∧ nr0 ≤ t_rev2 then -1 else nr0,
      if 0 < t_rev2 ∧ pr0 ≤ t_rev2 then -1 else pr0)
  else (-1, -1)

/-- Move duration solved by `calculate_lm` (lines 324-368).  With no
acceleration, the exact ceiling of `(2^31*pos_final - accum_adj) / rate`.
Otherwise the quadratic `accel/2·T^2 + rate_effective·T + c_factor = 0` is
solved; `bigN = 4·(b^2 - 4ac)` is four times the discriminant, so the real
roots are `(-b2 ± √bigN) / (2·accel)` with `b2 = 2·rate_effective`.  Roots
are ceiled, roots at or before the reversal tick are discarded, and the
remaining candidates selected by `lm_root_select`; no surviving candidate
gives the source's fallback time 0.  The source's final
`ceil(time_final_star)` is the identity there, all candidates being
integers already. -/
def lm_time (steps rate accel accum_adj : Int) : Int :=
  let info := lm_pos_info steps rate accel accum_adj
  if accel = 0 then ratCeil (accumMod * info.1 - accum_adj) rate
  else
    let b2 := lm_b2 rate accel
    let c_factor := accum_adj - info.2.1 * accumMod
    let bigN := b2 * b2 - 8 * accel * c_factor
    let roots := lm_roots b2 bigN (2 * accel) info.2.2
    lm_root_select roots.1 roots.2

/-- The adjusted accumulator of `calculate_lm` (lines 276-279): shifted
down by `2^31 - 1` for "negative" moves. -/
def lm_accum_adj (rate accel : Int) (accum : Option Int) : Int :=
  if initialRateNegativeLT rate accel then
    resolveAccumLT rate accel accum - accumMax
  else resolveAccumLT rate accel accum

/-- Main path of `calculate_lm` after the degenerate-input and legacy-mode
checks (lines 255-376). -/
def lm_main (steps rate accel : Int) (accum : Option Int) : Int × Int × Int :=
  let accumV := resolveAccumLT rate accel accum
  let accum_adj := lm_accum_adj rate accel accum
  let info := lm_pos_info steps rate accel accum_adj
  let time_final := lm_time steps rate accel accum_adj
  (time_final, info.1, lm_accum_final rate accel accumV info.1 time_final)

/-- `calculate_lm(steps, rate, accel, accum)` (ebb_calc.py lines 221-376):
duration, distance, and final accumulator of an LM move.  Degenerate inputs
(`steps = 0`, or `rate = accel = 0`) return `(0, 0, 0)`; a negative step
count invokes legacy mode, which rejects a negative rate and otherwise
negates `steps`, `rate` and `accel` together. -/
def calculate_lm (steps rate accel : Int) (accum : Option Int) :
    Int × Int × Int :=
  if steps = 0 then (0, 0, 0)
  else if accel = 0 ∧ rate = 0 then (0, 0, 0)
  else if steps < 0 then
    if rate < 0 then (0, 0, 0)
    else lm_main (-steps) (-rate) (-accel) accum
  else lm_main steps rate accel accum

/-- The effective T3 rate
`rate + accel/2 - int(accel/2) + int(jerk/6) - jerk/6` of the source (lines
143-144), as an exact rational. -/
def rateEffT3Q (rate accel jerk : Int) : ℚ :=
  rate + (accel : ℚ) / 2 - Int.tdiv accel 2 + Int.tdiv jerk 6 - (jerk : ℚ) / 6

/-- The raw cubic accumulator value
`accum + rate_effective*T + accel*T^2/2 + jerk*T^3/6` of `move_dist_t3`
(source lines 150-152), as an exact rational. -/
def t3RawQ (time rate accel jerk accumV : Int) : ℚ :=
  accumV + rateEffT3Q rate accel jerk * time
    + (accel : ℚ) * time * time / 2 + (jerk : ℚ) * time * time * time / 6

/-- Rounding a rational to the nearest integer with ties rounded upward
(round-half-up): `⌊x + 1/2⌋`. -/
def roundHalfUpQ (x : ℚ) : Int := ⌊x + 1 / 2⌋

/-- The accumulator argument that mirrors a move with all rate signs
flipped: the `"clear"` sentinel is self-mirroring (its sign resolution
flips with the rates), and an explicit value `a` mirrors to
`2^31 - 1 - a`. -/
def mirrorAccum : Option Int → Option Int
  | none => none
  | some a => some (accumMax - a)

/-! ### Helper lemmas -/

/-- The doubled raw LM accumulator value is even: the polynomial
`rate_effective*T + accel*T^2/2` is the sum of the integer per-tick rates,
so the raw accumulator itself is an integer. -/
theorem ltRaw2_even (rate accel time accumV : Int) :
    2 ∣ ltRaw2 rate accel time accumV := by
  obtain ⟨k, hk⟩ := Int.even_mul_succ_self time
  refine ⟨accumV + rate * time - Int.tdiv accel 2 * time + accel * k, ?_⟩
  unfold ltRaw2
  linear_combination accel * hk

/-- Six divides the product of any three consecutive integers. -/
theorem six_dvd_triple (t : Int) : (6 : Int) ∣ (t - 1) * t * (t + 1) := by
  have h : (((t - 1) * t * (t + 1) : Int) : ZMod 6) = 0 := by
    push_cast
    generalize (t : ZMod 6) = u
    revert u
    decide
  exact_mod_cast (ZMod.intCast_zmod_eq_zero_iff_dvd _ 6).mp h

/-- The six-fold raw T3 accumulator value is divisible by 6: the cubic
closed form equals the integer sum of the per-tick rates, so the raw
accumulator is an integer and the source's `round` never faces a tie. -/
theorem t3Raw6_dvd (time rate accel jerk accumV : Int) :
    6 ∣ t3Raw6 time rate accel jerk accumV := by
  obtain ⟨k, hk⟩ := Int.even_mul_succ_self time
  obtain ⟨m, hm⟩ := six_dvd_triple time
  refine ⟨accumV + rate * time - Int.tdiv accel 2 * time
    + Int.tdiv jerk 6 * time + accel * k + jerk * m, ?_⟩
  unfold t3Raw6
  linear_combination (3 * accel) * hk + jerk * hm

/-! ### Claims -/

/-- C3: for every rate, accel, jerk and every accumulator argument (the
sentinel `"clear"`, i.e. `none`, or any integer), zero elapsed time yields
zero steps and a zero final accumulator from both simulators:
`move_dist_lt rate accel 0 accum = (0, 0)` and
`move_dist_t3 0 rate accel jerk accum = (0, 0)`. -/
theorem claim_C3_zero_time (rate accel jerk : Int) (accum : Option Int) :
    move_dist_lt rate accel 0 accum = (0, 0) ∧
    move_dist_t3 0 rate accel jerk accum = (0, 0) :=
  ⟨rfl, rfl⟩

/-- C2: for every input with positive time, the final accumulator returned
by `move_dist_lt` and by `move_dist_t3` lies in `[0, 2^31)`. -/
theorem claim_C2_accum_range (rate accel jerk time : Int) (accum : Option Int)
    (h : 0 < time) :
    (0 ≤ (move_dist_lt rate accel time accum).2 ∧
        (move_dist_lt rate accel time accum).2 < 2147483648) ∧
    (0 ≤ (move_dist_t3 time rate accel jerk accum).2 ∧
        (move_dist_t3 time rate accel jerk accum).2 < 2147483648) := by
  have htz : time ≠ 0 := by omega
  constructor
  · simp only [move_dist_lt, if_neg htz]
    rw [Int.fdiv_eq_ediv _ (by norm_num), Int.fdiv_eq_ediv _ (by norm_num),
      ← Int.emod_def]
    refine ⟨Int.ediv_nonneg (Int.emod_nonneg _ (by norm_num)) (by norm_num), ?_⟩
    have h1 : ltRaw2 rate accel time (resolveAccumLT rate accel accum)
        % 4294967296 < 4294967296 := Int.emod_lt_of_pos _ (by norm_num)
    exact (Int.ediv_lt_iff_lt_mul (by norm_num)).mpr (by omega)
  · simp only [move_dist_t3, if_neg htz]
    rw [Int.fdiv_eq_ediv _ (by norm_num [accumMod]), ← Int.emod_def]
    have h2 : (0 : Int) < accumMod := by norm_num [accumMod]
    refine ⟨Int.emod_nonneg _ (by omega), ?_⟩
    have h3 : accumMod = 2147483648 := rfl
    have := Int.emod_lt_of_pos
      (roundHalfUpSixth (t3Raw6 time rate accel jerk
        (resolveAccumT3 rate accel jerk accum))) h2
    omega

/-- C4: the reversal-case input from the reference suite:
`calculate_lm(134, -1050109930, 5099123, "clear")` returns exactly
time `471`, position `34`, accumulator `128535542`. -/
theorem claim_C4_reversal_case :
    calculate_lm 134 (-1050109930) 5099123 none = (471, 34, 128535542) := by
  decide

/-- C8: at `time = 0`, `rate_t3` returns exactly `rate + accel + jerk`;
this special case is a genuinely different function from the general
formula evaluated at `T = 0` (they disagree, e.g., at
`rate = 0, accel = 1, jerk = 0`); and in particular
`rate_t3(0, 490123456, 0, 0) = 490123456`. -/
theorem claim_C8_zero_time_rate :
    (∀ rate accel jerk : Int,
        rate_t3 0 rate accel jerk = rate + accel + jerk) ∧
    (∃ rate accel jerk : Int,
        rate_t3 0 rate accel jerk ≠ rate_t3_poly 0 rate accel jerk) ∧
    rate_t3 0 490123456 0 0 = 490123456 :=
  ⟨fun _ _ _ => rfl, ⟨0, 1, 0, by decide⟩, rfl⟩

/-- C10: for every `time ≤ 1` (zero and negative included) and every rate,
accel, jerk, `max_rate_t3` returns `|rate_t3 1 rate accel jerk|` — the
result depends only on the rate at the first tick. -/
theorem claim_C10_short_time (time rate accel jerk : Int) (h : time ≤ 1) :
    max_rate_t3 time rate accel jerk = |rate_t3 1 rate accel jerk| := by
  simp only [max_rate_t3]
  rw [if_pos h]

/-- Witness for C10 at a negative time. -/
theorem claim_C10_short_time_witness :
    (-3 : Int) ≤ 1 ∧ max_rate_t3 (-3) 5 7 9 = |rate_t3 1 5 7 9| :=
  ⟨by decide, claim_C10_short_time (-3) 5 7 9 (by decide)⟩

/-- Witness for C2 at a concrete positive time. -/
theorem claim_C2_accum_range_witness :
    (0 : Int) < 22 ∧
    ((0 ≤ (move_dist_lt 490123456 0 22 none).2 ∧
        (move_dist_lt 490123456 0 22 none).2 < 2147483648) ∧
      (0 ≤ (move_dist_t3 22 490123456 0 0 none).2 ∧
        (move_dist_t3 22 490123456 0 0 none).2 < 2147483648)) :=
  ⟨by decide, claim_C2_accum_range 490123456 0 0 22 none (by decide)⟩

/-- C7: for every `time > 1`, `max_rate_t3` returns the maximum of the
absolute rates at tick 1 and at tick `time`, together with the rate at the
(discretised, ceiled) interior critical point
`t_mid = (jerk/2 - accel)/jerk`, the latter included exactly when
`jerk ≠ 0` and `t_mid` lies strictly inside `(1.5, time - 1.5)`; when
`jerk = 0` only the two endpoint rates are compared.  (`rate_t3` takes an
integer tick, so the rate at the real-valued critical point is evaluated at
`⌈t_mid⌉`, as the source does.) -/
theorem claim_C7_max_rate (time rate accel jerk : Int) (h : 1 < time) :
    max_rate_t3 time rate accel jerk =
      if jerk ≠ 0 ∧ ((3 / 2 : ℚ) < tMidQ accel jerk
          ∧ tMidQ accel jerk < (time : ℚ) - 3 / 2) then
        max (max |rate_t3 1 rate accel jerk| |rate_t3 time rate accel jerk|)
          |rate_t3 ⌈tMidQ accel jerk⌉ rate accel jerk|
      else max |rate_t3 1 rate accel jerk| |rate_t3 time rate accel jerk| := by
  have hnle : ¬ time ≤ 1 := by omega
  simp only [max_rate_t3, if_neg hnle]
  by_cases hj : jerk = 0
  · rw [if_pos hj, if_neg (by simp [hj])]
  · rw [if_neg hj]
    by_cases hmid : (3 / 2 : ℚ) < tMidQ accel jerk
        ∧ tMidQ accel jerk < (time : ℚ) - 3 / 2
    · rw [if_pos hmid, if_pos ⟨hj, hmid⟩]
    · rw [if_neg hmid, if_neg (by tauto)]

/-- Witness for C7 at `time = 10, rate = 0, accel = -4, jerk = 2`, where
the interior critical point `t_mid = 2.5` is inside `(1.5, 8.5)`. -/
theorem claim_C7_max_rate_witness :
    (1 : Int) < 10 ∧
    max_rate_t3 10 0 (-4) 2 =
      (if (2 : Int) ≠ 0 ∧ ((3 / 2 : ℚ) < tMidQ (-4) 2
          ∧ tMidQ (-4) 2 < ((10 : Int) : ℚ) - 3 / 2) then
        max (max |rate_t3 1 0 (-4) 2| |rate_t3 10 0 (-4) 2|)
          |rate_t3 ⌈tMidQ (-4) 2⌉ 0 (-4) 2|
      else max |rate_t3 1 0 (-4) 2| |rate_t3 10 0 (-4) 2|) :=
  ⟨by decide, claim_C7_max_rate 10 0 (-4) 2 (by decide)⟩

/-- C9: for positive time, the raw cubic accumulator value
`accum + rate_effective*T + accel*T^2/2 + jerk*T^3/6` of `move_dist_t3` is
an exact integer `m`; rounding it to the nearest integer with ties rounded
upward returns that same `m` (so the rounding direction is immaterial), and
the returned pair is the floor-by-`2^31` and remainder extracted from `m`. -/
theorem claim_C9_t3_rounding (time rate accel jerk : Int) (accum : Option Int)
    (h : 0 < time) :
    ∃ m : Int,
      t3RawQ time rate accel jerk (resolveAccumT3 rate accel jerk accum)
          = m ∧
      roundHalfUpQ
          (t3RawQ time rate accel jerk (resolveAccumT3 rate accel jerk accum))
          = m ∧
      move_dist_t3 time rate accel jerk accum
        = (Int.fdiv m accumMod, m - accumMod * Int.fdiv m accumMod) := by
  obtain ⟨m, hm⟩ :=
    t3Raw6_dvd time rate accel jerk (resolveAccumT3 rate accel jerk accum)
  have hQ : t3RawQ time rate accel jerk
      (resolveAccumT3 rate accel jerk accum) = (m : ℚ) := by
    have h6 : t3RawQ time rate accel jerk
        (resolveAccumT3 rate accel jerk accum)
        = (t3Raw6 time rate accel jerk
            (resolveAccumT3 rate accel jerk accum) : ℚ) / 6 := by
      unfold t3RawQ rateEffT3Q t3Raw6
      push_cast
      ring
    rw [h6, hm]
    push_cast
    ring
  have hround : roundHalfUpSixth (t3Raw6 time rate accel jerk
      (resolveAccumT3 rate accel jerk accum)) = m := by
    unfold roundHalfUpSixth
    rw [hm, Int.fdiv_eq_ediv _ (by norm_num)]
    have h63 : (6 * m + 3 : Int) = 3 + 6 * m := by ring
    rw [h63, Int.add_mul_ediv_left 3 m (by norm_num : (6 : Int) ≠ 0)]
    norm_num
  refine ⟨m, hQ, ?_, ?_⟩
  · rw [hQ]
    unfold roundHalfUpQ
    rw [Int.floor_int_add]
    norm_num
  · simp only [move_dist_t3, if_neg (show time ≠ 0 by omega), hround]

/-- Witness for C9 at a concrete T3 move. -/
theorem claim_C9_t3_rounding_witness :
    (0 : Int) < 20 ∧
    ∃ m : Int,
      t3RawQ 20 478000000 0 (-9600000)
          (resolveAccumT3 478000000 0 (-9600000) none) = m ∧
      roundHalfUpQ (t3RawQ 20 478000000 0 (-9600000)
          (resolveAccumT3 478000000 0 (-9600000) none)) = m ∧
      move_dist_t3 20 478000000 0 (-9600000) none
        = (Int.fdiv m accumMod, m - accumMod * Int.fdiv m accumMod) :=
  ⟨by decide, claim_C9_t3_rounding 20 478000000 0 (-9600000) none (by decide)⟩

/-- C1: round-trip between the move-time solver and the simulator.  For a
well-posed move — positive step count (the primary, non-legacy mode), a
solver result with positive time (a real root was found, not the
degenerate fallback) and a final accumulator inside `[0, 2^31)` (the move
does not overshoot its target within a single tick) — if `calculate_lm`
returns `(t, p, c)` then `move_dist_lt rate accel t accum` returns exactly
`(p, c)`. -/
theorem claim_C1_round_trip (steps rate accel t p c : Int)
    (accum : Option Int) (hsteps : 0 < steps)
    (hlm : calculate_lm steps rate accel accum = (t, p, c))
    (ht : 0 < t) (hc0 : 0 ≤ c) (hc1 : c < 2147483648) :
    move_dist_lt rate accel t accum = (p, c) := by
  have h1 : ¬ steps = 0 := by omega
  have h2 : ¬ steps < 0 := by omega
  by_cases hd : accel = 0 ∧ rate = 0
  · unfold calculate_lm at hlm
    rw [if_neg h1, if_pos hd] at hlm
    have := congrArg Prod.fst hlm
    simp at this
    omega
  · unfold calculate_lm at hlm
    rw [if_neg h1, if_neg hd, if_neg h2] at hlm
    simp only [lm_main, Prod.mk.injEq] at hlm
    obtain ⟨hT, hP, hC⟩ := hlm
    rw [hT, hP] at hC
    rw [lm_accum_final] at hC
    obtain ⟨k, hk⟩ := ltRaw2_even rate accel t (resolveAccumLT rate accel accum)
    have hsplit : ltRaw2 rate accel t (resolveAccumLT rate accel accum)
        - 4294967296 * p = 2 * (k - 2147483648 * p) := by omega
    rw [hsplit, Int.mul_tdiv_cancel_left _ (by norm_num)] at hC
    have hraw : ltRaw2 rate accel t (resolveAccumLT rate accel accum)
        = 2 * c + 4294967296 * p := by omega
    have htz : ¬ t = 0 := by omega
    simp only [move_dist_lt, if_neg htz, Prod.mk.injEq]
    have hpos : Int.fdiv
        (ltRaw2 rate accel t (resolveAccumLT rate accel accum)) 4294967296
        = p := by
      rw [Int.fdiv_eq_ediv _ (by norm_num), hraw,
        Int.add_mul_ediv_left (2 * c) p (by norm_num : (4294967296:Int) ≠ 0)]
      have h0 : (2 * c) / 4294967296 = 0 :=
        Int.ediv_eq_zero_of_lt (by omega) (by omega)
      omega
    refine ⟨hpos, ?_⟩
    rw [hpos, hraw]
    have h2c : 2 * c + 4294967296 * p - 4294967296 * p = 2 * c := by ring
    rw [h2c, Int.fdiv_eq_ediv _ (by norm_num),
      Int.mul_ediv_cancel_left c (by norm_num : (2:Int) ≠ 0)]

/-- Witness for C1 at a concrete accelerating move. -/
theorem claim_C1_round_trip_witness :
    ((0 : Int) < 29 ∧ (0 : Int) < 85 ∧ (0 : Int) ≤ 1142286978 ∧
      (1142286978 : Int) < 2147483648) ∧
    calculate_lm 29 8589934 17353403 none = (85, 29, 1142286978) ∧
    move_dist_lt 8589934 17353403 85 none = (29, 1142286978) :=
  ⟨by decide, by decide,
    claim_C1_round_trip 29 8589934 17353403 85 29 1142286978 none
      (by decide) (by decide) (by decide) (by decide) (by decide)⟩

/-- C6: for every input with negative step count, `calculate_lm` either
rejects (returning `(0, 0, 0)`, with no error raised — the function is
total) when the rate is also negative, or behaves exactly as
`calculate_lm (-steps) (-rate) (-accel) accum` when the rate is
non-negative. -/
theorem claim_C6_legacy (steps rate accel : Int) (accum : Option Int)
    (hneg : steps < 0) :
    (rate < 0 → calculate_lm steps rate accel accum = (0, 0, 0)) ∧
    (0 ≤ rate → calculate_lm steps rate accel accum
        = calculate_lm (-steps) (-rate) (-accel) accum) := by
  have h1 : ¬ steps = 0 := by omega
  have h1' : ¬ (-steps) = 0 := by omega
  have h2' : ¬ (-steps) < 0 := by omega
  constructor
  · intro hr
    unfold calculate_lm
    rw [if_neg h1]
    by_cases hd : accel = 0 ∧ rate = 0
    · rw [if_pos hd]
    · rw [if_neg hd, if_pos hneg, if_pos hr]
  · intro hr
    unfold calculate_lm
    by_cases hd : accel = 0 ∧ rate = 0
    · have hd' : -accel = 0 ∧ -rate = 0 := by omega
      rw [if_neg h1, if_neg h1', if_pos hd, if_pos hd']
    · have hd' : ¬ (-accel = 0 ∧ -rate = 0) := by omega
      rw [if_neg h1, if_neg h1', if_neg hd, if_neg hd', if_pos hneg,
        if_neg (show ¬ rate < 0 by omega), if_neg h2']

/-- Witness for C6: a rejected legacy input and an accepted one. -/
theorem claim_C6_legacy_witness :
    ((-5 : Int) < 0) ∧ calculate_lm (-5) (-7) 2 none = (0, 0, 0) ∧
      calculate_lm (-5) 3 2 none = calculate_lm 5 (-3) (-2) none :=
  ⟨by decide, (claim_C6_legacy (-5) (-7) 2 none (by decide)).1 (by decide),
    (claim_C6_legacy (-5) 3 2 none (by decide)).2 (by decide)⟩

/-! ### Mirror-symmetry lemmas for `calculate_lm` (claim C5) -/

/-- `initialRateNegativeLT` as a decision of its defining disjunction. -/
theorem irn_eq_decide (rate accel : Int) :
    initialRateNegativeLT rate accel
      = decide (rate - Int.tdiv accel 2 + accel < 0
          ∨ (rate - Int.tdiv accel 2 + accel = 0 ∧ accel < 0)) := by
  simp only [initialRateNegativeLT]
  split_ifs with h1 h2
  · simp [h1]
  · simp [h2]
  · exact (decide_eq_false (by tauto)).symm

/-- Flipping the signs of rate and accel flips the initial-rate-negative
flag, provided the move is not degenerate (`rate = accel = 0`). -/
theorem irn_neg (rate accel : Int) (h : ¬ (rate = 0 ∧ accel = 0)) :
    initialRateNegativeLT (-rate) (-accel)
      = ! initialRateNegativeLT rate accel := by
  rw [irn_eq_decide, irn_eq_decide, Int.neg_tdiv, ← decide_not]
  refine decide_eq_decide.mpr ?_
  by_cases ha : accel = 0
  · subst ha
    have h0 : Int.tdiv (0 : Int) 2 = 0 := rfl
    rw [h0]
    have hr : rate ≠ 0 := fun hr => h ⟨hr, rfl⟩
    omega
  · generalize Int.tdiv accel 2 = d
    omega

/-- Mirroring the accumulator argument complements the resolved
accumulator. -/
theorem resolveAccumLT_neg (rate accel : Int) (accum : Option Int)
    (h : ¬ (rate = 0 ∧ accel = 0)) :
    resolveAccumLT (-rate) (-accel) (mirrorAccum accum)
      = accumMax - resolveAccumLT rate accel accum := by
  cases accum with
  | some a => rfl
  | none =>
    simp only [mirrorAccum, resolveAccumLT, irn_neg rate accel h]
    cases hb : initialRateNegativeLT rate accel <;> simp

/-- Mirroring negates the adjusted accumulator. -/
theorem lm_accum_adj_neg (rate accel : Int) (accum : Option Int)
    (h : ¬ (rate = 0 ∧ accel = 0)) :
    lm_accum_adj (-rate) (-accel) (mirrorAccum accum)
      = -(lm_accum_adj rate accel accum) := by
  simp only [lm_accum_adj, resolveAccumLT_neg rate accel accum h,
    irn_neg rate accel h]
  cases hb : initialRateNegativeLT rate accel <;> simp

/-- Mirroring negates the doubled effective rate. -/
theorem lm_b2_neg (rate accel : Int) :
    lm_b2 (-rate) (-accel) = -(lm_b2 rate accel) := by
  simp only [lm_b2, Int.neg_tdiv]
  ring

/-- `ratFloor` is invariant under negating numerator and denominator. -/
theorem ratFloor_neg_neg (p q : Int) : ratFloor (-p) (-q) = ratFloor p q := by
  simp only [ratFloor]
  rcases lt_trichotomy q 0 with h | h | h
  · rw [if_neg (by omega), if_pos h]
  · subst h
    norm_num
  · rw [if_pos (by omega), if_neg (by omega), neg_neg, neg_neg]

/-- `ratCeil` is invariant under negating numerator and denominator. -/
theorem ratCeil_neg_neg (p q : Int) : ratCeil (-p) (-q) = ratCeil p q := by
  have h := ratFloor_neg_neg (-p) q
  rw [neg_neg] at h
  simp only [ratCeil, neg_neg]
  rw [h]

/-- `ceilRoot` is invariant under negating `p`, `e` and `q` together. -/
theorem ceilRoot_neg (p e bigN q : Int) (hq : q ≠ 0) :
    ceilRoot (-p) (-e) bigN (-q) = ceilRoot p e bigN q := by
  simp only [ceilRoot]
  rcases lt_trichotomy q 0 with h | h | h
  · rw [if_neg (by omega), if_pos h]
  · exact absurd h hq
  · rw [if_pos (by omega), if_neg (by omega), neg_neg, neg_neg, neg_neg]

/-- The "negative" quadratic root of the mirrored move is the "positive"
root of the original one. -/
theorem ceilRoot_mirror_neg (b2 bigN q : Int) (hq : q ≠ 0) :
    ceilRoot b2 (-1) bigN (-q) = ceilRoot (-b2) 1 bigN q := by
  have h := ceilRoot_neg (-b2) 1 bigN q hq
  simpa using h

/-- The "positive" quadratic root of the mirrored move is the "negative"
root of the original one. -/
theorem ceilRoot_mirror_pos (b2 bigN q : Int) (hq : q ≠ 0) :
    ceilRoot b2 1 bigN (-q) = ceilRoot (-b2) (-1) bigN q := by
  have h := ceilRoot_neg (-b2) (-1) bigN q hq
  simpa using h

/-- The reversal tick is invariant under mirroring. -/
theorem lm_t_rev_neg (rate accel : Int) :
    lm_t_rev (-rate) (-accel) = lm_t_rev rate accel := by
  simp only [lm_t_rev]
  by_cases hc : accel ≠ 0 ∧ rate ≠ 0 ∧ ¬((0 < accel) ↔ (0 < rate))
  · have hc' : -accel ≠ 0 ∧ -rate ≠ 0 ∧ ¬((0 < -accel) ↔ (0 < -rate)) := by
      obtain ⟨ha, hr, hiff⟩ := hc
      refine ⟨by omega, by omega, fun hf => hiff ?_⟩
      omega
    rw [if_pos hc', if_pos hc]
    have h1 : -accel - 2 * -rate = -(accel - 2 * rate) := by ring
    have h2 : (2 : Int) * -accel = -(2 * accel) := by ring
    rw [h1, h2, ratFloor_neg_neg]
  · have hc' : ¬ (-accel ≠ 0 ∧ -rate ≠ 0 ∧ ¬((0 < -accel) ↔ (0 < -rate))) := by
      intro hcc
      apply hc
      obtain ⟨ha, hr, hiff⟩ := hcc
      refine ⟨by omega, by omega, fun hf => hiff ?_⟩
      omega
    rw [if_neg hc', if_neg hc]

/-- The reversal position is invariant under mirroring. -/
theorem lm_s_rev_neg (rate accel adj t_rev : Int) :
    lm_s_rev (-rate) (-accel) (-adj) t_rev = lm_s_rev rate accel adj t_rev := by
  simp only [lm_s_rev, lm_b2_neg]
  by_cases h : 0 < t_rev
  · rw [if_pos h, if_pos h]
    have h1 : -lm_b2 rate accel * t_rev + -accel * t_rev * t_rev + 2 * -adj
        = -(lm_b2 rate accel * t_rev + accel * t_rev * t_rev + 2 * adj) := by
      ring
    rw [h1, abs_neg]
  · rw [if_neg h, if_neg h]

/-- Mirroring negates the final and adjusted positions and leaves the
(possibly reset) reversal tick unchanged. -/
theorem lm_pos_info_neg (steps rate accel adj : Int)
    (h : ¬ (rate = 0 ∧ accel = 0)) :
    lm_pos_info steps (-rate) (-accel) (-adj)
      = (-(lm_pos_info steps rate accel adj).1,
         -(lm_pos_info steps rate accel adj).2.1,
         (lm_pos_info steps rate accel adj).2.2) := by
  simp only [lm_pos_info, lm_t_rev_neg, lm_s_rev_neg]
  by_cases hb : lm_t_rev rate accel ≤ 1
      ∨ lm_s_rev rate accel adj (lm_t_rev rate accel) ≥ steps
  · rw [if_pos hb, if_pos hb, irn_neg rate accel h]
    cases hirn : initialRateNegativeLT rate accel <;> simp
  · push_neg at hb
    have ht1 : 1 < lm_t_rev rate accel := by omega
    have ha : accel ≠ 0 := by
      intro ha0
      have hm1 : lm_t_rev rate accel = -1 := by
        simp only [lm_t_rev]
        rw [if_neg]
        intro hcc
        exact hcc.1 ha0
      omega
    have hb2 : ¬ (lm_t_rev rate accel ≤ 1
        ∨ lm_s_rev rate accel adj (lm_t_rev rate accel) ≥ steps) := by omega
    rw [if_neg hb2, if_neg hb2]
    by_cases hs : lm_s_rev rate accel adj (lm_t_rev rate accel) = 0
    · rw [if_pos hs, if_pos hs]
      rcases lt_trichotomy accel 0 with hlt | heq | hgt
      · rw [if_pos (by omega : (0 : Int) < -accel),
          if_neg (by omega : ¬ (0 : Int) < accel)]
        simp only [Prod.mk.injEq, true_and, and_true]
        omega
      · exact absurd heq ha
      · rw [if_neg (by omega : ¬ (0 : Int) < -accel), if_pos hgt]
        simp only [Prod.mk.injEq, true_and, and_true]
        omega
    · rw [if_neg hs, if_neg hs]
      rcases lt_trichotomy accel 0 with hlt | heq | hgt
      · rw [if_pos (by omega : (0 : Int) < -accel),
          if_neg (by omega : ¬ (0 : Int) < accel)]
        simp only [Prod.mk.injEq, true_and, and_true]
        omega
      · exact absurd heq ha
      · rw [if_neg (by omega : ¬ (0 : Int) < -accel), if_pos hgt]
        simp only [Prod.mk.injEq, true_and, and_true]
        omega

/-- Root selection is symmetric in its two candidates. -/
theorem lm_root_select_comm (x y : Int) :
    lm_root_select x y = lm_root_select y x := by
  simp only [lm_root_select]
  split_ifs <;> omega

/-- Mirroring swaps the two filtered quadratic roots. -/
theorem lm_roots_neg (b2 bigN q t2 : Int) (hq : q ≠ 0) :
    lm_roots (-b2) bigN (-q) t2
      = ((lm_roots b2 bigN q t2).2, (lm_roots b2 bigN q t2).1) := by
  simp only [lm_roots]
  by_cases hN : 0 ≤ bigN
  · rw [if_pos hN, if_pos hN]
    simp only [neg_neg, ceilRoot_mirror_neg b2 bigN q hq,
      ceilRoot_mirror_pos b2 bigN q hq]
  · rw [if_neg hN, if_neg hN]

/-- The solved move duration is invariant under mirroring. -/
theorem lm_time_neg (steps rate accel adj : Int)
    (h : ¬ (rate = 0 ∧ accel = 0)) :
    lm_time steps (-rate) (-accel) (-adj) = lm_time steps rate accel adj := by
  simp only [lm_time, lm_pos_info_neg steps rate accel adj h]
  by_cases ha : accel = 0
  · subst ha
    rw [if_pos (show -(0 : Int) = 0 by norm_num), if_pos rfl]
    have h1 : accumMod * -((lm_pos_info steps rate 0 adj).1) - -adj
        = -(accumMod * (lm_pos_info steps rate 0 adj).1 - adj) := by ring
    rw [h1, ratCeil_neg_neg]
  · rw [if_neg (show ¬ -accel = 0 by omega), if_neg ha, lm_b2_neg]
    have hc : -adj - -((lm_pos_info steps rate accel adj).2.1) * accumMod
        = -(adj - (lm_pos_info steps rate accel adj).2.1 * accumMod) := by
      ring
    rw [hc]
    have hN : -lm_b2 rate accel * -lm_b2 rate accel
        - 8 * -accel
          * -(adj - (lm_pos_info steps rate accel adj).2.1 * accumMod)
        = lm_b2 rate accel * lm_b2 rate accel
          - 8 * accel
            * (adj - (lm_pos_info steps rate accel adj).2.1 * accumMod) := by
      ring
    rw [hN]
    have h2 : (2 : Int) * -accel = -(2 * accel) := by ring
    rw [h2, lm_roots_neg _ _ _ _ (by omega : (2 : Int) * accel ≠ 0)]
    exact lm_root_select_comm _ _

/-- Mirroring complements the final accumulator of `calculate_lm`. -/
theorem lm_accum_final_neg (rate accel accumV pos t : Int) :
    lm_accum_final (-rate) (-accel) (accumMax - accumV) (-pos) t
      = accumMax - lm_accum_final rate accel accumV pos t := by
  obtain ⟨k, hk⟩ := ltRaw2_even rate accel t accumV
  have harg : ltRaw2 rate accel t accumV - 4294967296 * pos
      = 2 * (k - 2147483648 * pos) := by omega
  have harg2 : ltRaw2 (-rate) (-accel) t (accumMax - accumV)
      - 4294967296 * -pos
      = 2 * (accumMax - k + 2147483648 * pos) := by
    unfold ltRaw2 at hk ⊢
    rw [Int.neg_tdiv]
    linear_combination -hk
  unfold lm_accum_final
  rw [harg, harg2, Int.mul_tdiv_cancel_left _ (by norm_num),
    Int.mul_tdiv_cancel_left _ (by norm_num)]
  ring

/-- Full mirror symmetry of the main path of `calculate_lm`: flipping the
signs of rate and accel and mirroring the accumulator keeps the move
duration, negates the final position, and complements the final
accumulator. -/
theorem lm_main_neg (steps rate accel : Int) (accum : Option Int)
    (h : ¬ (rate = 0 ∧ accel = 0)) :
    lm_main steps (-rate) (-accel) (mirrorAccum accum)
      = ((lm_main steps rate accel accum).1,
         -((lm_main steps rate accel accum).2.1),
         accumMax - (lm_main steps rate accel accum).2.2) := by
  simp only [lm_main, resolveAccumLT_neg rate accel accum h,
    lm_accum_adj_neg rate accel accum h,
    lm_pos_info_neg steps rate accel (lm_accum_adj rate accel accum) h,
    lm_time_neg steps rate accel (lm_accum_adj rate accel accum) h,
    lm_accum_final_neg]

/-- C5 counterexample: the claim's mirrored call negates the step count as
well, so it lands in legacy mode, which rejects a negative rate argument
before the accumulator is even read.  At steps = 5, rate = 268435456,
accel = 0 the original call gives (time 40, position 5), while
`calculate_lm (-5) (-268435456) 0 accum` returns `(0, 0, 0)` for every
candidate mirrored accumulator (the sentinel, the complement `2^31 - 1` of
the resolved value, or zero): position `0` is not `-5` and time `0` is not
`40`. -/
theorem claim_C5_counterexample :
    calculate_lm 5 268435456 0 none = (40, 5, 0) ∧
    calculate_lm (-5) (-268435456) 0 none = (0, 0, 0) ∧
    calculate_lm (-5) (-268435456) 0 (some 2147483647) = (0, 0, 0) ∧
    calculate_lm (-5) (-268435456) 0 (some 0) = (0, 0, 0) ∧
    (0 : Int) ≠ -5 ∧ (0 : Int) ≠ 40 := by
  refine ⟨by decide, by decide, by decide, by decide, by decide, by decide⟩

/-- C5 (amended): the sign-symmetry contract holds with the step count
kept positive: for every steps > 0, mirroring rate and accel and the
accumulator argument (`"clear"` is self-mirroring, an explicit `a` mirrors
to `2^31 - 1 - a`) produces the same move duration and the negated final
position.  (Negating steps as well instead reinvokes legacy mode, which
either rejects the call or undoes the mirroring; see the
counterexample.) -/
theorem claim_C5_sign_mirror (steps rate accel : Int) (accum : Option Int)
    (h : 0 < steps) :
    (calculate_lm steps (-rate) (-accel) (mirrorAccum accum)).1
      = (calculate_lm steps rate accel accum).1 ∧
    (calculate_lm steps (-rate) (-accel) (mirrorAccum accum)).2.1
      = -((calculate_lm steps rate accel accum).2.1) := by
  have h1 : ¬ steps = 0 := by omega
  have h2 : ¬ steps < 0 := by omega
  by_cases hd : accel = 0 ∧ rate = 0
  · unfold calculate_lm
    have hd2 : -accel = 0 ∧ -rate = 0 := by omega
    rw [if_neg h1, if_neg h1, if_pos hd, if_pos hd2]
    norm_num
  · unfold calculate_lm
    have hd2 : ¬ (-accel = 0 ∧ -rate = 0) := by omega
    rw [if_neg h1, if_neg h1, if_neg hd, if_neg hd2, if_neg h2, if_neg h2]
    have h3 : ¬ (rate = 0 ∧ accel = 0) := by tauto
    rw [lm_main_neg steps rate accel accum h3]
    exact ⟨rfl, rfl⟩

/-- Witness for the amended C5 at a concrete decelerating move. -/
theorem claim_C5_sign_mirror_witness :
    (0 : Int) < 29 ∧
    ((calculate_lm 29 (-1800095000) (-(-26012345))
        (mirrorAccum none)).1
      = (calculate_lm 29 1800095000 (-26012345) none).1 ∧
    (calculate_lm 29 (-1800095000) (-(-26012345))
        (mirrorAccum none)).2.1
      = -((calculate_lm 29 1800095000 (-26012345) none).2.1)) :=
  ⟨by decide, claim_C5_sign_mirror 29 1800095000 (-26012345) none (by decide)⟩
